import Mathlib

/-!
Verification of the FFT frequency-response estimation core of
`FFT_frequency_response.py`.

The script's core (lines 45-53 plus the two plot expressions) is:

    dt = tstamps[1] - tstamps[0]
    ns = len(stimulus)
    ws = rfftfreq(ns, dt)[ignore_dc:]
    hs = rfft(stimulus * window)[ignore_dc:]
    hr = rfft(response * window)[ignore_dc:]
    hs_db = 20*np.log10(np.abs(hs))
    hr_db = 20*np.log10(np.abs(hr))
    magnitude_db = hr_db - hs_db          # ax3 plot expression
    phase_deg = 180/np.pi*np.angle(hr/hs) # ax4 plot expression

Signals are modelled as `List ℝ`, spectra as `List ℂ`.  The dB / phase
outputs live in `FVal`, a four-point extension of ℝ with `+∞`, `-∞` and
`NaN`, so that the script's IEEE-754 degenerate values (`log10(0) = -inf`,
`-inf - -inf = nan`, `angle` of a division by zero = `nan`) are represented
faithfully; the finite arithmetic itself is exact real arithmetic.
The window is a parameter of the pipeline (the script's line 47 picks the
nuttall window; the spec's §4.2 makes the window kind a configuration
choice, and the claims quantify over windows or pick the rectangular one).
-/

/-- Extended value type for the dB / phase output arrays: a finite real,
`+∞`, `-∞`, or `NaN`, mirroring the IEEE-754 special values that
`20*log10`, subtraction and `angle` can produce in the script. -/
inductive FVal where
  | fin (x : ℝ)
  | posInf
  | negInf
  | nan

/-- IEEE-754 style subtraction on `FVal` (the `hr_db - hs_db` of line 79):
`∞ - ∞` and anything involving `NaN` is `NaN`; a finite value minus `-∞`
is `+∞`, etc. -/
def fsub : FVal → FVal → FVal
  | FVal.nan, _ => FVal.nan
  | FVal.fin _, FVal.nan => FVal.nan
  | FVal.posInf, FVal.nan => FVal.nan
  | FVal.negInf, FVal.nan => FVal.nan
  | FVal.fin a, FVal.fin b => FVal.fin (a - b)
  | FVal.fin _, FVal.posInf => FVal.negInf
  | FVal.fin _, FVal.negInf => FVal.posInf
  | FVal.posInf, FVal.fin _ => FVal.posInf
  | FVal.posInf, FVal.posInf => FVal.nan
  | FVal.posInf, FVal.negInf => FVal.posInf
  | FVal.negInf, FVal.fin _ => FVal.negInf
  | FVal.negInf, FVal.posInf => FVal.negInf
  | FVal.negInf, FVal.negInf => FVal.nan

/-- IEEE-754 style addition of a finite real shift to an `FVal`:
infinities and `NaN` absorb the shift. -/
def fadd : FVal → ℝ → FVal
  | FVal.fin a, s => FVal.fin (a + s)
  | FVal.posInf, _ => FVal.posInf
  | FVal.negInf, _ => FVal.negInf
  | FVal.nan, _ => FVal.nan

/-- `20*np.log10(np.abs(z))` (lines 52-53): `-∞` at `z = 0`
(numpy's `log10(0)`), otherwise the exact real value. -/
noncomputable def db (z : ℂ) : FVal :=
  if z = 0 then FVal.negInf else FVal.fin (20 * Real.logb 10 (Complex.abs z))

/-- `180/np.pi*np.angle(hr/hs)` at one bin (line 88): `NaN` when the
stimulus coefficient is zero (numpy's complex division by zero propagates
to a `NaN` angle), otherwise the principal-value argument in degrees. -/
noncomputable def phaseDeg (hr hs : ℂ) : FVal :=
  if hs = 0 then FVal.nan else FVal.fin (180 / Real.pi * Complex.arg (hr / hs))

/-- `scipy.fft.rfftfreq(n, d)` (line 49): the one-sided frequency axis
`[0, 1, ..., n/2] / (n*d)`. -/
noncomputable def rfftfreq (n : ℕ) (d : ℝ) : List ℝ :=
  (List.range (n / 2 + 1)).map (fun k : ℕ => (k : ℝ) / (n * d))

/-- The `k`-th discrete-Fourier coefficient of a real signal `x`:
`Σ_j x[j] * exp(-2πi*k*j/len(x))`. -/
noncomputable def dftCoeff (x : List ℝ) (k : ℕ) : ℂ :=
  ∑ j ∈ Finset.range x.length,
    (x.getD j 0 : ℂ) * Complex.exp (-(2 * Real.pi * Complex.I * k * j) / x.length)

/-- `scipy.fft.rfft(x)` (lines 50-51): the one-sided transform, bins
`0` to `len(x)/2`. -/
noncomputable def rfft (x : List ℝ) : List ℂ :=
  (List.range (x.length / 2 + 1)).map (dftCoeff x)

/-- The outputs of the estimation core: frequency axis, the two retained
spectra, the two absolute-magnitude dB arrays, and the transfer-function
magnitude / phase arrays. -/
structure FFTResult where
  ws : List ℝ
  hs : List ℂ
  hr : List ℂ
  hs_db : List FVal
  hr_db : List FVal
  mag_db : List FVal
  phase_deg : List FVal

/-- The estimation core, lines 45-53 of the script plus the two plot
expressions (lines 79 and 88).  `ignore_dc` is the line 42 flag, the
python slice `[ignore_dc:]` with `ignore_dc ∈ {0,1}` is `List.drop`.
`elemMul` below is numpy's elementwise `*`. -/
noncomputable def runPipeline (tstamps stimulus response window : List ℝ)
    (ignore_dc : Bool) : FFTResult :=
  let dt : ℝ := tstamps.getD 1 0 - tstamps.getD 0 0
  let ns : ℕ := stimulus.length
  let nDrop : ℕ := if ignore_dc then 1 else 0
  let ws := (rfftfreq ns dt).drop nDrop
  let hs := (rfft (List.zipWith (· * ·) stimulus window)).drop nDrop
  let hr := (rfft (List.zipWith (· * ·) response window)).drop nDrop
  let hs_db := hs.map db
  let hr_db := hr.map db
  { ws := ws, hs := hs, hr := hr, hs_db := hs_db, hr_db := hr_db,
    mag_db := List.zipWith fsub hr_db hs_db,
    phase_deg := List.zipWith phaseDeg hr hs }

/-- Error taxonomy of the spec's §7. -/
inductive PipelineError where
  | shapeMismatchError
  | invalidSampleRateError
  | unknownWindowError

/-- The spec's SamplePair data holder (§3). -/
structure SamplePair where
  stimulus : List ℝ
  response : List ℝ
  sample_period : ℝ

/-- Modelled from the spec: the validating SamplePair constructor of §4.1
is not present in the script source (the script computes `dt` and `ns` on
lines 45-46 without any validation); the spec specifies that construction
"fails with ShapeMismatchError if lengths differ, and with
InvalidSampleRateError if the derived or supplied period is non-positive
or non-finite", synchronously at construction time.  Non-finite periods
have no counterpart in ℝ; the non-positive case (which includes 0) is
modelled. -/
noncomputable def SamplePair.make (stimulus response : List ℝ) (sample_period : ℝ) :
    Except PipelineError SamplePair :=
  if stimulus.length ≠ response.length then Except.error PipelineError.shapeMismatchError
  else if sample_period ≤ 0 then Except.error PipelineError.invalidSampleRateError
  else Except.ok ⟨stimulus, response, sample_period⟩

/-- The defining ratio form of the transfer-function magnitude from the
spec's §4.5: `20 * log10( |response_spectrum[k]| / |stimulus_spectrum[k]| )`,
with `-∞` when the ratio of absolute values is zero. -/
noncomputable def magRatioDb (hr hs : ℂ) : FVal :=
  if Complex.abs hr / Complex.abs hs = 0 then FVal.negInf
  else FVal.fin (20 * Real.logb 10 (Complex.abs hr / Complex.abs hs))

/-! ### Basic structural lemmas -/

theorem length_rfft (x : List ℝ) : (rfft x).length = x.length / 2 + 1 := by
  simp [rfft]

theorem length_rfftfreq (n : ℕ) (d : ℝ) : (rfftfreq n d).length = n / 2 + 1 := by
  simp [rfftfreq]

theorem rfftfreq_getD (n : ℕ) (d : ℝ) {k : ℕ} (hk : k < n / 2 + 1) :
    (rfftfreq n d).getD k 0 = (k : ℝ) / (n * d) := by
  rw [rfftfreq, List.getD_eq_getElem _ _ (by simpa using hk), List.getElem_map,
    List.getElem_range]

theorem runPipeline_mag_db (t s r w : List ℝ) (idc : Bool) :
    (runPipeline t s r w idc).mag_db =
      List.zipWith fsub ((runPipeline t s r w idc).hr.map db)
        ((runPipeline t s r w idc).hs.map db) := rfl

theorem runPipeline_phase_deg (t s r w : List ℝ) (idc : Bool) :
    (runPipeline t s r w idc).phase_deg =
      List.zipWith phaseDeg (runPipeline t s r w idc).hr
        (runPipeline t s r w idc).hs := rfl

/-- C10: the frequency axis `ws` is a function of only the sample count
`ns = len(stimulus)`, the first timestamp delta `dt = tstamps[1] - tstamps[0]`
and the `ignore_dc` flag: two runs agreeing on those produce identical
frequency axes regardless of sample values, window, response, and the
remaining timestamps. -/
theorem freq_axis_noninterference (t₁ t₂ s₁ s₂ r₁ r₂ w₁ w₂ : List ℝ) (idc : Bool)
    (hns : s₁.length = s₂.length)
    (h0 : t₁.getD 0 0 = t₂.getD 0 0) (h1 : t₁.getD 1 0 = t₂.getD 1 0) :
    (runPipeline t₁ s₁ r₁ w₁ idc).ws = (runPipeline t₂ s₂ r₂ w₂ idc).ws := by
  simp only [runPipeline, h0, h1, hns]

/-- Witness for C10 at a concrete pair of inputs differing in sample values,
window, response and trailing timestamps. -/
theorem freq_axis_noninterference_witness :
    (([(1:ℝ), 2].length = ([3, 4] : List ℝ).length) ∧
     ([(0:ℝ), 1, 5].getD 0 0 = ([0, 1, 99] : List ℝ).getD 0 0) ∧
     ([(0:ℝ), 1, 5].getD 1 0 = ([0, 1, 99] : List ℝ).getD 1 0)) ∧
    (runPipeline [0, 1, 5] [1, 2] [5, 6] [1, 1] true).ws =
      (runPipeline [0, 1, 99] [3, 4] [7, 8] [2, 2] true).ws :=
  ⟨⟨rfl, by norm_num, by norm_num⟩,
   freq_axis_noninterference _ _ _ _ _ _ _ _ _ rfl (by norm_num) (by norm_num)⟩

/-- C9 (spec-modelled): constructing the SamplePair with unequal-length
channels yields `ShapeMismatchError`, and with a non-positive period
(in particular 0) yields `InvalidSampleRateError`; both are produced
synchronously by the constructor. -/
theorem samplePair_construction_errors (s r : List ℝ) (p : ℝ) :
    (s.length ≠ r.length →
      SamplePair.make s r p = Except.error PipelineError.shapeMismatchError) ∧
    (s.length = r.length → p ≤ 0 →
      SamplePair.make s r p = Except.error PipelineError.invalidSampleRateError) := by
  constructor
  · intro h
    simp [SamplePair.make, h]
  · intro h hp
    simp [SamplePair.make, h, hp]

/-- Witness for C9: length-1 vs length-2 channels, and period 0. -/
theorem samplePair_construction_errors_witness :
    (([(0:ℝ)].length ≠ ([0, 0] : List ℝ).length) ∧
      SamplePair.make [0] [0, 0] 1 = Except.error PipelineError.shapeMismatchError) ∧
    (([(0:ℝ)].length = ([0] : List ℝ).length) ∧ (0:ℝ) ≤ 0 ∧
      SamplePair.make [0] [0] 0 = Except.error PipelineError.invalidSampleRateError) :=
  ⟨⟨by norm_num, (samplePair_construction_errors [0] [0, 0] 1).1 (by norm_num)⟩,
   ⟨rfl, le_refl 0, (samplePair_construction_errors [0] [0] 0).2 rfl (le_refl 0)⟩⟩

theorem runPipeline_ws_false (t s r w : List ℝ) :
    (runPipeline t s r w false).ws = rfftfreq s.length (t.getD 1 0 - t.getD 0 0) := by
  simp [runPipeline]

theorem runPipeline_hs_false (t s r w : List ℝ) :
    (runPipeline t s r w false).hs = rfft (List.zipWith (· * ·) s w) := by
  simp [runPipeline]

theorem runPipeline_hr_false (t s r w : List ℝ) :
    (runPipeline t s r w false).hr = rfft (List.zipWith (· * ·) r w) := by
  simp [runPipeline]

/-- C6: with `ignore_dc = true` every pipeline output is the
`ignore_dc = false` output with bin index 0 dropped: the frequency axis and
both spectra lose exactly their first element (uniformly), each output
length is exactly one less, and the outputs agree bin-for-bin at every
other index (index `k` of the dropped run is index `k+1` of the full run). -/
theorem ignore_dc_drops_dc_bin (t s r w : List ℝ) :
    (runPipeline t s r w true).ws = (runPipeline t s r w false).ws.tail ∧
    (runPipeline t s r w true).hs = (runPipeline t s r w false).hs.tail ∧
    (runPipeline t s r w true).hr = (runPipeline t s r w false).hr.tail ∧
    (runPipeline t s r w true).mag_db = (runPipeline t s r w false).mag_db.tail ∧
    (runPipeline t s r w true).phase_deg = (runPipeline t s r w false).phase_deg.tail ∧
    (runPipeline t s r w true).ws.length + 1 = (runPipeline t s r w false).ws.length ∧
    (runPipeline t s r w true).mag_db.length + 1 = (runPipeline t s r w false).mag_db.length ∧
    (runPipeline t s r w true).phase_deg.length + 1 =
      (runPipeline t s r w false).phase_deg.length ∧
    (∀ k : ℕ, (runPipeline t s r w true).ws[k]? = (runPipeline t s r w false).ws[k + 1]?) ∧
    (∀ k : ℕ,
      (runPipeline t s r w true).mag_db[k]? = (runPipeline t s r w false).mag_db[k + 1]?) ∧
    (∀ k : ℕ,
      (runPipeline t s r w true).phase_deg[k]? =
        (runPipeline t s r w false).phase_deg[k + 1]?) := by
  have hws : (runPipeline t s r w true).ws = (runPipeline t s r w false).ws.tail := by
    simp [runPipeline, List.drop_one]
  have hhs : (runPipeline t s r w true).hs = (runPipeline t s r w false).hs.tail := by
    simp [runPipeline, List.drop_one]
  have hhr : (runPipeline t s r w true).hr = (runPipeline t s r w false).hr.tail := by
    simp [runPipeline, List.drop_one]
  have hmag : (runPipeline t s r w true).mag_db = (runPipeline t s r w false).mag_db.tail := by
    rw [runPipeline_mag_db, runPipeline_mag_db, hhr, hhs]
    simp only [← List.drop_one, List.map_drop, List.drop_zipWith]
  have hphase :
      (runPipeline t s r w true).phase_deg = (runPipeline t s r w false).phase_deg.tail := by
    rw [runPipeline_phase_deg, runPipeline_phase_deg, hhr, hhs]
    simp only [← List.drop_one, List.drop_zipWith]
  have h1ws : 1 ≤ (runPipeline t s r w false).ws.length := by
    rw [runPipeline_ws_false, length_rfftfreq]
    omega
  have h1mag : 1 ≤ (runPipeline t s r w false).mag_db.length := by
    rw [runPipeline_mag_db, runPipeline_hr_false, runPipeline_hs_false]
    simp only [List.length_zipWith, List.length_map, length_rfft]
    omega
  have h1phase : 1 ≤ (runPipeline t s r w false).phase_deg.length := by
    rw [runPipeline_phase_deg, runPipeline_hr_false, runPipeline_hs_false]
    simp only [List.length_zipWith, length_rfft]
    omega
  refine ⟨hws, hhs, hhr, hmag, hphase, ?_, ?_, ?_, ?_, ?_, ?_⟩
  · rw [hws, List.length_tail]
    omega
  · rw [hmag, List.length_tail]
    omega
  · rw [hphase, List.length_tail]
    omega
  · intro k
    rw [hws, List.getElem?_tail]
  · intro k
    rw [hmag, List.getElem?_tail]
  · intro k
    rw [hphase, List.getElem?_tail]

theorem rfftfreq_pairwise (n : ℕ) (d : ℝ) (hn : 0 < n) (hd : 0 < d) :
    (rfftfreq n d).Pairwise (· < ·) := by
  rw [rfftfreq, List.pairwise_map]
  refine (List.pairwise_lt_range _).imp fun hab => ?_
  have hnd : 0 < (n : ℝ) * d := by
    have h0 : (0:ℝ) < n := by exact_mod_cast hn
    positivity
  exact div_lt_div_of_pos_right (by exact_mod_cast hab) hnd

theorem rfftfreq_last_near_nyquist (n : ℕ) (d : ℝ) (h2 : 2 ≤ n) (hd : 0 < d) :
    |1 / (2 * d) - (rfftfreq n d).getD (n / 2) 0| ≤ 1 / (n * d) := by
  rw [rfftfreq_getD _ _ (Nat.lt_succ_self _)]
  have hn0 : (0:ℝ) < n := by
    have : 0 < n := by omega
    exact_mod_cast this
  have hsplit : (n : ℝ) = 2 * (↑(n / 2) : ℝ) + (↑(n % 2) : ℝ) := by
    exact_mod_cast (Nat.div_add_mod n 2).symm
  have hm0 : (0:ℝ) ≤ (↑(n % 2) : ℝ) := Nat.cast_nonneg _
  have hm1 : (↑(n % 2) : ℝ) ≤ 1 := by
    have : n % 2 ≤ 1 := by omega
    exact_mod_cast this
  have hq : (↑(n / 2) : ℝ) = ((n : ℝ) - ↑(n % 2)) / 2 := by linarith
  have key : 1 / (2 * d) - (↑(n / 2) : ℝ) / (↑n * d) = (↑(n % 2) : ℝ) / (2 * (↑n * d)) := by
    rw [hq]
    field_simp
    ring
  rw [key, abs_of_nonneg (by positivity)]
  rw [div_le_div_iff₀ (by positivity) (by positivity)]
  nlinarith [mul_pos hn0 hd]

/-- C5: for a valid pair (equal-length channels and window, `N ≥ 2`
samples, positive sample period), the one-sided transform produces
`M = N/2 + 1` coefficients per channel and a matching frequency axis with
`freqs[k] = k / (N * dt)`; the axis is strictly increasing and its last
value is within one bin width `1/(N*dt)` of the Nyquist frequency
`1/(2*dt)`. -/
theorem one_sided_transform_spec (t s r w : List ℝ)
    (hwlen : w.length = s.length) (hrlen : r.length = s.length)
    (h2 : 2 ≤ s.length) (hd : 0 < t.getD 1 0 - t.getD 0 0) :
    (runPipeline t s r w false).hs.length = s.length / 2 + 1 ∧
    (runPipeline t s r w false).hr.length = s.length / 2 + 1 ∧
    (runPipeline t s r w false).ws.length = s.length / 2 + 1 ∧
    (∀ k, k < s.length / 2 + 1 →
      (runPipeline t s r w false).ws.getD k 0 =
        (k : ℝ) / (s.length * (t.getD 1 0 - t.getD 0 0))) ∧
    (runPipeline t s r w false).ws.Pairwise (· < ·) ∧
    |1 / (2 * (t.getD 1 0 - t.getD 0 0)) -
        (runPipeline t s r w false).ws.getD (s.length / 2) 0| ≤
      1 / (s.length * (t.getD 1 0 - t.getD 0 0)) := by
  refine ⟨?_, ?_, ?_, ?_, ?_, ?_⟩
  · rw [runPipeline_hs_false, length_rfft, List.length_zipWith, hwlen, Nat.min_self]
  · rw [runPipeline_hr_false, length_rfft, List.length_zipWith, hwlen, hrlen, Nat.min_self]
  · rw [runPipeline_ws_false, length_rfftfreq]
  · intro k hk
    rw [runPipeline_ws_false, rfftfreq_getD _ _ hk]
  · rw [runPipeline_ws_false]
    exact rfftfreq_pairwise _ _ (by omega) hd
  · rw [runPipeline_ws_false]
    exact rfftfreq_last_near_nyquist _ _ h2 hd

/-- Witness for C5 at a concrete 4-sample pair with unit sample period. -/
theorem one_sided_transform_spec_witness :
    (([(1:ℝ), 1, 1, 1].length = ([1, 0, 0, 0] : List ℝ).length) ∧
     ([(0:ℝ), 0, 0, 0].length = ([1, 0, 0, 0] : List ℝ).length) ∧
     2 ≤ ([(1:ℝ), 0, 0, 0] : List ℝ).length ∧
     0 < ([(0:ℝ), 1, 2, 3].getD 1 0 - [(0:ℝ), 1, 2, 3].getD 0 0)) ∧
    ((runPipeline [0, 1, 2, 3] [1, 0, 0, 0] [0, 0, 0, 0] [1, 1, 1, 1] false).hs.length =
        ([(1:ℝ), 0, 0, 0] : List ℝ).length / 2 + 1 ∧
      (runPipeline [0, 1, 2, 3] [1, 0, 0, 0] [0, 0, 0, 0] [1, 1, 1, 1] false).hr.length =
        ([(1:ℝ), 0, 0, 0] : List ℝ).length / 2 + 1 ∧
      (runPipeline [0, 1, 2, 3] [1, 0, 0, 0] [0, 0, 0, 0] [1, 1, 1, 1] false).ws.length =
        ([(1:ℝ), 0, 0, 0] : List ℝ).length / 2 + 1 ∧
      (∀ k, k < ([(1:ℝ), 0, 0, 0] : List ℝ).length / 2 + 1 →
        (runPipeline [0, 1, 2, 3] [1, 0, 0, 0] [0, 0, 0, 0] [1, 1, 1, 1] false).ws.getD k 0 =
          (k : ℝ) / (([(1:ℝ), 0, 0, 0] : List ℝ).length *
            ([(0:ℝ), 1, 2, 3].getD 1 0 - [(0:ℝ), 1, 2, 3].getD 0 0))) ∧
      (runPipeline [0, 1, 2, 3] [1, 0, 0, 0] [0, 0, 0, 0] [1, 1, 1, 1] false).ws.Pairwise
        (· < ·) ∧
      |1 / (2 * ([(0:ℝ), 1, 2, 3].getD 1 0 - [(0:ℝ), 1, 2, 3].getD 0 0)) -
          (runPipeline [0, 1, 2, 3] [1, 0, 0, 0] [0, 0, 0, 0] [1, 1, 1, 1] false).ws.getD
            (([(1:ℝ), 0, 0, 0] : List ℝ).length / 2) 0| ≤
        1 / (([(1:ℝ), 0, 0, 0] : List ℝ).length *
          ([(0:ℝ), 1, 2, 3].getD 1 0 - [(0:ℝ), 1, 2, 3].getD 0 0))) :=
  ⟨⟨rfl, rfl, by norm_num, by norm_num⟩,
   one_sided_transform_spec [0, 1, 2, 3] [1, 0, 0, 0] [0, 0, 0, 0] [1, 1, 1, 1]
     rfl rfl (by norm_num) (by norm_num)⟩

/-! ### Per-bin access lemmas -/

theorem zipWith_fsub_db_getD (zr zs : List ℂ) (k : ℕ)
    (hk : k < (List.zipWith fsub (zr.map db) (zs.map db)).length) :
    (List.zipWith fsub (zr.map db) (zs.map db)).getD k FVal.nan =
      fsub (db (zr.getD k 0)) (db (zs.getD k 0)) := by
  have h1 : k < zr.length := by
    simp only [List.length_zipWith, List.length_map] at hk
    omega
  have h2 : k < zs.length := by
    simp only [List.length_zipWith, List.length_map] at hk
    omega
  rw [List.getD_eq_getElem _ _ hk, List.getElem_zipWith, List.getElem_map, List.getElem_map,
    List.getD_eq_getElem _ _ h1, List.getD_eq_getElem _ _ h2]

theorem zipWith_phaseDeg_getD (zr zs : List ℂ) (k : ℕ)
    (hk : k < (List.zipWith phaseDeg zr zs).length) :
    (List.zipWith phaseDeg zr zs).getD k FVal.nan =
      phaseDeg (zr.getD k 0) (zs.getD k 0) := by
  have h1 : k < zr.length := by
    simp only [List.length_zipWith] at hk
    omega
  have h2 : k < zs.length := by
    simp only [List.length_zipWith] at hk
    omega
  rw [List.getD_eq_getElem _ _ hk, List.getElem_zipWith,
    List.getD_eq_getElem _ _ h1, List.getD_eq_getElem _ _ h2]

/-- C2: at any retained bin whose stimulus spectrum coefficient is zero,
the pipeline outputs representable degenerate values instead of failing:
the magnitude is `+∞` or `NaN`, and the phase is `NaN`. -/
theorem zero_stimulus_bin_degenerate (t s r w : List ℝ) (idc : Bool) (k : ℕ)
    (hk : k < (runPipeline t s r w idc).mag_db.length)
    (hk' : k < (runPipeline t s r w idc).phase_deg.length)
    (h0 : (runPipeline t s r w idc).hs.getD k 0 = 0) :
    ((runPipeline t s r w idc).mag_db.getD k FVal.nan = FVal.posInf ∨
     (runPipeline t s r w idc).mag_db.getD k FVal.nan = FVal.nan) ∧
    (runPipeline t s r w idc).phase_deg.getD k FVal.nan = FVal.nan := by
  rw [runPipeline_mag_db] at hk
  rw [runPipeline_phase_deg] at hk'
  rw [runPipeline_mag_db, runPipeline_phase_deg, zipWith_fsub_db_getD _ _ _ hk,
    zipWith_phaseDeg_getD _ _ _ hk', h0]
  constructor
  · cases db ((runPipeline t s r w idc).hr.getD k 0) <;> simp [db, fsub]
  · simp [phaseDeg]

/-- Witness for C2: zero stimulus signal against a unit-impulse response,
bin 0 retained (`ignore_dc = false`). -/
theorem zero_stimulus_bin_degenerate_witness :
    (0 < (runPipeline [0, 1] [0, 0] [1, 0] [1, 1] false).mag_db.length ∧
     0 < (runPipeline [0, 1] [0, 0] [1, 0] [1, 1] false).phase_deg.length ∧
     (runPipeline [0, 1] [0, 0] [1, 0] [1, 1] false).hs.getD 0 0 = 0) ∧
    (((runPipeline [0, 1] [0, 0] [1, 0] [1, 1] false).mag_db.getD 0 FVal.nan = FVal.posInf ∨
      (runPipeline [0, 1] [0, 0] [1, 0] [1, 1] false).mag_db.getD 0 FVal.nan = FVal.nan) ∧
     (runPipeline [0, 1] [0, 0] [1, 0] [1, 1] false).phase_deg.getD 0 FVal.nan = FVal.nan) :=
  ⟨⟨by
      rw [runPipeline_mag_db, runPipeline_hr_false, runPipeline_hs_false]
      simp [List.length_zipWith, length_rfft],
    by
      rw [runPipeline_phase_deg, runPipeline_hr_false, runPipeline_hs_false]
      simp [List.length_zipWith, length_rfft],
    by
      rw [runPipeline_hs_false]
      norm_num [rfft, dftCoeff, Finset.sum_range_succ, List.range_succ]⟩,
   zero_stimulus_bin_degenerate [0, 1] [0, 0] [1, 0] [1, 1] false 0
     (by
       rw [runPipeline_mag_db, runPipeline_hr_false, runPipeline_hs_false]
       simp [List.length_zipWith, length_rfft])
     (by
       rw [runPipeline_phase_deg, runPipeline_hr_false, runPipeline_hs_false]
       simp [List.length_zipWith, length_rfft])
     (by
       rw [runPipeline_hs_false]
       norm_num [rfft, dftCoeff, Finset.sum_range_succ, List.range_succ])⟩

theorem fsub_db_eq_magRatioDb (zr zs : ℂ) (hzs : zs ≠ 0) :
    fsub (db zr) (db zs) = magRatioDb zr zs := by
  have hs0 : Complex.abs zs ≠ 0 := by simpa using hzs
  by_cases hzr : zr = 0
  · subst hzr
    simp [db, magRatioDb, fsub, hzs]
  · have hr0 : Complex.abs zr ≠ 0 := by simpa using hzr
    have hdiv : Complex.abs zr / Complex.abs zs ≠ 0 := div_ne_zero hr0 hs0
    simp only [db, magRatioDb, if_neg hzr, if_neg hzs, if_neg hdiv, fsub]
    rw [Real.logb_div hr0 hs0]
    congr 1
    ring

/-- C3: at every retained bin where the stimulus spectrum coefficient is
nonzero, the code's difference-of-dB magnitude `hr_db - hs_db` equals the
spec's defining ratio form `20*log10(|hr| / |hs|)`. -/
theorem mag_db_eq_ratio_form (t s r w : List ℝ) (idc : Bool) (k : ℕ)
    (hk : k < (runPipeline t s r w idc).mag_db.length)
    (h0 : (runPipeline t s r w idc).hs.getD k 0 ≠ 0) :
    (runPipeline t s r w idc).mag_db.getD k FVal.nan =
      magRatioDb ((runPipeline t s r w idc).hr.getD k 0)
        ((runPipeline t s r w idc).hs.getD k 0) := by
  rw [runPipeline_mag_db] at hk
  rw [runPipeline_mag_db, zipWith_fsub_db_getD _ _ _ hk]
  exact fsub_db_eq_magRatioDb _ _ h0

/-- Witness for C3: unit-step stimulus against its double, bin 0. -/
theorem mag_db_eq_ratio_form_witness :
    (0 < (runPipeline [0, 1] [1, 0] [2, 0] [1, 1] false).mag_db.length ∧
     (runPipeline [0, 1] [1, 0] [2, 0] [1, 1] false).hs.getD 0 0 ≠ 0) ∧
    (runPipeline [0, 1] [1, 0] [2, 0] [1, 1] false).mag_db.getD 0 FVal.nan =
      magRatioDb ((runPipeline [0, 1] [1, 0] [2, 0] [1, 1] false).hr.getD 0 0)
        ((runPipeline [0, 1] [1, 0] [2, 0] [1, 1] false).hs.getD 0 0) :=
  ⟨⟨by
      rw [runPipeline_mag_db, runPipeline_hr_false, runPipeline_hs_false]
      simp [List.length_zipWith, length_rfft],
    by
      rw [runPipeline_hs_false]
      norm_num [rfft, dftCoeff, Finset.sum_range_succ, List.range_succ]⟩,
   mag_db_eq_ratio_form [0, 1] [1, 0] [2, 0] [1, 1] false 0
     (by
       rw [runPipeline_mag_db, runPipeline_hr_false, runPipeline_hs_false]
       simp [List.length_zipWith, length_rfft])
     (by
       rw [runPipeline_hs_false]
       norm_num [rfft, dftCoeff, Finset.sum_range_succ, List.range_succ])⟩

/-- C4: at every retained bin where the stimulus spectrum coefficient is
nonzero, the phase output is `(180/π) * arg(hr[k] / hs[k])` with `arg` the
principal value in `(-π, π]`; the formula is bin-local, so no unwrapping
across bins occurs. -/
theorem phase_deg_spec (t s r w : List ℝ) (idc : Bool) (k : ℕ)
    (hk : k < (runPipeline t s r w idc).phase_deg.length)
    (h0 : (runPipeline t s r w idc).hs.getD k 0 ≠ 0) :
    (runPipeline t s r w idc).phase_deg.getD k FVal.nan =
      FVal.fin (180 / Real.pi *
        Complex.arg ((runPipeline t s r w idc).hr.getD k 0 /
          (runPipeline t s r w idc).hs.getD k 0)) ∧
    Complex.arg ((runPipeline t s r w idc).hr.getD k 0 /
        (runPipeline t s r w idc).hs.getD k 0) ∈
      Set.Ioc (-Real.pi) Real.pi := by
  rw [runPipeline_phase_deg] at hk
  rw [runPipeline_phase_deg, zipWith_phaseDeg_getD _ _ _ hk]
  exact ⟨by rw [phaseDeg, if_neg h0], Complex.arg_mem_Ioc _⟩

/-- Witness for C4: unit-step stimulus against its double, bin 0. -/
theorem phase_deg_spec_witness :
    (0 < (runPipeline [0, 1] [1, 0] [2, 0] [1, 1] false).phase_deg.length ∧
     (runPipeline [0, 1] [1, 0] [2, 0] [1, 1] false).hs.getD 0 0 ≠ 0) ∧
    ((runPipeline [0, 1] [1, 0] [2, 0] [1, 1] false).phase_deg.getD 0 FVal.nan =
      FVal.fin (180 / Real.pi *
        Complex.arg ((runPipeline [0, 1] [1, 0] [2, 0] [1, 1] false).hr.getD 0 0 /
          (runPipeline [0, 1] [1, 0] [2, 0] [1, 1] false).hs.getD 0 0)) ∧
     Complex.arg ((runPipeline [0, 1] [1, 0] [2, 0] [1, 1] false).hr.getD 0 0 /
        (runPipeline [0, 1] [1, 0] [2, 0] [1, 1] false).hs.getD 0 0) ∈
      Set.Ioc (-Real.pi) Real.pi) :=
  ⟨⟨by
      rw [runPipeline_phase_deg, runPipeline_hr_false, runPipeline_hs_false]
      simp [List.length_zipWith, length_rfft],
    by
      rw [runPipeline_hs_false]
      norm_num [rfft, dftCoeff, Finset.sum_range_succ, List.range_succ]⟩,
   phase_deg_spec [0, 1] [1, 0] [2, 0] [1, 1] false 0
     (by
       rw [runPipeline_phase_deg, runPipeline_hr_false, runPipeline_hs_false]
       simp [List.length_zipWith, length_rfft])
     (by
       rw [runPipeline_hs_false]
       norm_num [rfft, dftCoeff, Finset.sum_range_succ, List.range_succ])⟩

/-- C7: when the response list is identical to the stimulus list, the
transfer function is exactly unity at every retained bin with nonzero
stimulus spectrum: 0 dB magnitude and 0 degrees phase, for every window
and either DC policy. -/
theorem identical_signals_unity (t s w : List ℝ) (idc : Bool) (k : ℕ)
    (hk : k < (runPipeline t s s w idc).hs.length)
    (h0 : (runPipeline t s s w idc).hs.getD k 0 ≠ 0) :
    (runPipeline t s s w idc).mag_db.getD k FVal.nan = FVal.fin 0 ∧
    (runPipeline t s s w idc).phase_deg.getD k FVal.nan = FVal.fin 0 := by
  have hrr : (runPipeline t s s w idc).hr = (runPipeline t s s w idc).hs := rfl
  have hkm : k < (List.zipWith fsub ((runPipeline t s s w idc).hr.map db)
      ((runPipeline t s s w idc).hs.map db)).length := by
    rw [hrr]
    simpa only [List.length_zipWith, List.length_map, Nat.min_self] using hk
  have hkp : k < (List.zipWith phaseDeg (runPipeline t s s w idc).hr
      (runPipeline t s s w idc).hs).length := by
    rw [hrr]
    simpa only [List.length_zipWith, Nat.min_self] using hk
  rw [runPipeline_mag_db, runPipeline_phase_deg, zipWith_fsub_db_getD _ _ _ hkm,
    zipWith_phaseDeg_getD _ _ _ hkp, hrr]
  constructor
  · simp only [db, if_neg h0]
    simp [fsub]
  · simp only [phaseDeg, if_neg h0]
    rw [div_self h0, Complex.arg_one, mul_zero]

/-- Witness for C7: a two-sample step as both stimulus and response,
rectangular window, bin 0. -/
theorem identical_signals_unity_witness :
    (0 < (runPipeline [0, 1] [1, 0] [1, 0] [1, 1] false).hs.length ∧
     (runPipeline [0, 1] [1, 0] [1, 0] [1, 1] false).hs.getD 0 0 ≠ 0) ∧
    ((runPipeline [0, 1] [1, 0] [1, 0] [1, 1] false).mag_db.getD 0 FVal.nan = FVal.fin 0 ∧
     (runPipeline [0, 1] [1, 0] [1, 0] [1, 1] false).phase_deg.getD 0 FVal.nan = FVal.fin 0) :=
  ⟨⟨by
      rw [runPipeline_hs_false]
      simp [length_rfft],
    by
      rw [runPipeline_hs_false]
      norm_num [rfft, dftCoeff, Finset.sum_range_succ, List.range_succ]⟩,
   identical_signals_unity [0, 1] [1, 0] [1, 1] false 0
     (by
       rw [runPipeline_hs_false]
       simp [length_rfft])
     (by
       rw [runPipeline_hs_false]
       norm_num [rfft, dftCoeff, Finset.sum_range_succ, List.range_succ])⟩

/-! ### Scaling lemmas -/

theorem dftCoeff_smul (c : ℝ) (x : List ℝ) (k : ℕ) :
    dftCoeff (x.map (fun v => c * v)) k = (c : ℂ) * dftCoeff x k := by
  unfold dftCoeff
  rw [List.length_map, Finset.mul_sum]
  refine Finset.sum_congr rfl fun j hj => ?_
  have hget : (x.map (fun v => c * v)).getD j 0 = c * x.getD j 0 := by
    rcases lt_or_ge j x.length with h | h
    · rw [List.getD_eq_getElem _ _ (by simpa using h), List.getElem_map,
        List.getD_eq_getElem _ _ h]
    · rw [List.getD_eq_default _ _ (by simpa using h), List.getD_eq_default _ _ h, mul_zero]
  rw [hget]
  push_cast
  ring

theorem rfft_smul (c : ℝ) (x : List ℝ) :
    rfft (x.map (fun v => c * v)) = (rfft x).map (fun z => (c : ℂ) * z) := by
  unfold rfft
  rw [List.length_map, List.map_map]
  exact List.map_congr_left fun k _ => dftCoeff_smul c x k

theorem db_smul (c : ℝ) (hc : 0 < c) (z : ℂ) :
    db ((c : ℂ) * z) = fadd (db z) (20 * Real.logb 10 c) := by
  by_cases hz : z = 0
  · subst hz
    simp [db, fadd]
  · have hc0 : (c : ℂ) ≠ 0 := by
      simpa using hc.ne'
    have hcz : (c : ℂ) * z ≠ 0 := mul_ne_zero hc0 hz
    have habs : Complex.abs z ≠ 0 := by simpa using hz
    simp only [db, if_neg hz, if_neg hcz, fadd]
    rw [map_mul, Complex.abs_ofReal, abs_of_pos hc, Real.logb_mul hc.ne' habs]
    congr 1
    ring

theorem fsub_fadd_left (a b : FVal) (s : ℝ) :
    fsub (fadd a s) b = fadd (fsub a b) s := by
  cases a <;> cases b <;> simp [fsub, fadd, add_sub_right_comm]

theorem phaseDeg_smul (c : ℝ) (hc : 0 < c) (zr zs : ℂ) :
    phaseDeg ((c : ℂ) * zr) zs = phaseDeg zr zs := by
  unfold phaseDeg
  by_cases hzs : zs = 0
  · simp [hzs]
  · rw [if_neg hzs, if_neg hzs, mul_div_assoc, Complex.arg_real_mul _ hc]

/-- C8: multiplying the whole response signal by a positive constant `c`
shifts the magnitude output by exactly `20*log10(c)` at every retained bin
(in the extended-value sense: infinities and `NaN` bins absorb the shift
unchanged) and leaves the phase output identical. -/
theorem response_scaling (t s r w : List ℝ) (idc : Bool) (c : ℝ) (hc : 0 < c) :
    (runPipeline t s (r.map (fun v => c * v)) w idc).mag_db =
      (runPipeline t s r w idc).mag_db.map (fun v => fadd v (20 * Real.logb 10 c)) ∧
    (runPipeline t s (r.map (fun v => c * v)) w idc).phase_deg =
      (runPipeline t s r w idc).phase_deg := by
  have hwin : List.zipWith (· * ·) (r.map (fun v => c * v)) w =
      (List.zipWith (· * ·) r w).map (fun v => c * v) := by
    rw [List.zipWith_map_left, List.map_zipWith]
    simp only [mul_assoc]
  have hhr : (runPipeline t s (r.map (fun v => c * v)) w idc).hr =
      (runPipeline t s r w idc).hr.map (fun z => (c : ℂ) * z) := by
    simp only [runPipeline, hwin, rfft_smul, List.map_drop]
  have hhs : (runPipeline t s (r.map (fun v => c * v)) w idc).hs =
      (runPipeline t s r w idc).hs := by
    simp only [runPipeline]
  constructor
  · rw [runPipeline_mag_db, runPipeline_mag_db, hhr, hhs, List.map_map,
      List.map_zipWith, List.zipWith_map_left, List.zipWith_map_left,
      List.zipWith_map_right, List.zipWith_map_right]
    have hfun : (fun a b => fsub ((db ∘ fun z => (c : ℂ) * z) a) (db b)) =
        fun a b => fadd (fsub (db a) (db b)) (20 * Real.logb 10 c) := by
      funext a b
      simp only [Function.comp_apply]
      rw [db_smul c hc, fsub_fadd_left]
    rw [hfun]
  · rw [runPipeline_phase_deg, runPipeline_phase_deg, hhr, hhs, List.zipWith_map_left]
    have hfun : (fun a b => phaseDeg ((c : ℂ) * a) b) = phaseDeg := by
      funext a b
      exact phaseDeg_smul c hc a b
    rw [hfun]

/-- Witness for C8 at `c = 10` on a concrete pair. -/
theorem response_scaling_witness :
    (0:ℝ) < 10 ∧
    ((runPipeline [0, 1] [1, 0] ([1, 2].map (fun v => (10:ℝ) * v)) [1, 1] false).mag_db =
        (runPipeline [0, 1] [1, 0] [1, 2] [1, 1] false).mag_db.map
          (fun v => fadd v (20 * Real.logb 10 10)) ∧
     (runPipeline [0, 1] [1, 0] ([1, 2].map (fun v => (10:ℝ) * v)) [1, 1] false).phase_deg =
        (runPipeline [0, 1] [1, 0] [1, 2] [1, 1] false).phase_deg) :=
  ⟨by norm_num, response_scaling [0, 1] [1, 0] [1, 2] [1, 1] false 10 (by norm_num)⟩

/-! ### The spec's §8 concrete scenario: N=4, stimulus = response = [1,0,-1,0],
sample_period 1, rectangular window, `ignore_dc = false`. -/

theorem dftCoeff_c1_zero : dftCoeff [1, 0, -1, 0] 0 = 0 := by
  rw [dftCoeff]
  norm_num [Finset.sum_range_succ]

theorem dftCoeff_c1_one : dftCoeff [1, 0, -1, 0] 1 = 2 := by
  rw [dftCoeff]
  norm_num [Finset.sum_range_succ]
  have h : (-(2 * (Real.pi : ℂ) * Complex.I * 2) / 4) = -(Real.pi * Complex.I) := by
    ring
  rw [h, Complex.exp_neg, Complex.exp_pi_mul_I]
  norm_num

theorem dftCoeff_c1_two : dftCoeff [1, 0, -1, 0] 2 = 0 := by
  rw [dftCoeff]
  norm_num [Finset.sum_range_succ]
  have h : (-(2 * (Real.pi : ℂ) * Complex.I * 2 * 2) / 4) = -(2 * Real.pi * Complex.I) := by
    ring
  rw [h, Complex.exp_neg, Complex.exp_two_pi_mul_I]
  norm_num

theorem rfft_c1 : rfft ([1, 0, -1, 0] : List ℝ) = [0, 2, 0] := by
  have h3 : List.range (([1, 0, -1, 0] : List ℝ).length / 2 + 1) = [0, 1, 2] := rfl
  rw [rfft, h3]
  simp only [List.map_cons, List.map_nil]
  rw [dftCoeff_c1_zero, dftCoeff_c1_one, dftCoeff_c1_two]

theorem c1_hs :
    (runPipeline [0, 1, 2, 3] [1, 0, -1, 0] [1, 0, -1, 0] [1, 1, 1, 1] false).hs =
      [0, 2, 0] := by
  rw [runPipeline_hs_false]
  have hw : List.zipWith (· * ·) ([1, 0, -1, 0] : List ℝ) [1, 1, 1, 1] = [1, 0, -1, 0] := by
    norm_num
  rw [hw, rfft_c1]

theorem c1_hr :
    (runPipeline [0, 1, 2, 3] [1, 0, -1, 0] [1, 0, -1, 0] [1, 1, 1, 1] false).hr =
      [0, 2, 0] := c1_hs

theorem c1_mag_db :
    (runPipeline [0, 1, 2, 3] [1, 0, -1, 0] [1, 0, -1, 0] [1, 1, 1, 1] false).mag_db =
      [FVal.nan, FVal.fin 0, FVal.nan] := by
  rw [runPipeline_mag_db, c1_hr, c1_hs]
  norm_num [db, fsub]

theorem c1_phase_deg :
    (runPipeline [0, 1, 2, 3] [1, 0, -1, 0] [1, 0, -1, 0] [1, 1, 1, 1] false).phase_deg =
      [FVal.nan, FVal.fin 0, FVal.nan] := by
  rw [runPipeline_phase_deg, c1_hr, c1_hs]
  norm_num [phaseDeg, Complex.arg_one]

/-- C1 counterexample: in the spec's concrete scenario the DFT of the
stimulus is exactly `[0, 2, 0]`, so at bin 0 (and bin 2) the stimulus
spectrum is zero and both the magnitude and the phase outputs are `NaN`
(`-inf - -inf` and `angle(0/0)`), which is not approximately 0. -/
theorem c1_claim_counterexample :
    (runPipeline [0, 1, 2, 3] [1, 0, -1, 0] [1, 0, -1, 0] [1, 1, 1, 1] false).mag_db.getD 0
        FVal.nan = FVal.nan ∧
    (runPipeline [0, 1, 2, 3] [1, 0, -1, 0] [1, 0, -1, 0] [1, 1, 1, 1] false).phase_deg.getD 0
        FVal.nan = FVal.nan ∧
    FVal.nan ≠ FVal.fin 0 := by
  refine ⟨?_, ?_, fun h => FVal.noConfusion h⟩
  · rw [c1_mag_db]
    rfl
  · rw [c1_phase_deg]
    rfl

/-- C1 (amended): for the concrete input N=4, stimulus = response =
[1,0,-1,0], sample_period 1, rectangular window, `ignore_dc = false`, the
stimulus spectrum is `[0, 2, 0]`; the pipeline returns magnitude exactly
0 dB and phase exactly 0 degrees at bin k=1 (the only retained bin with
nonzero stimulus spectrum), and `NaN` magnitude and phase at bins k=0 and
k=2 where the stimulus spectrum is zero. -/
theorem c1_concrete_scenario_amended :
    (runPipeline [0, 1, 2, 3] [1, 0, -1, 0] [1, 0, -1, 0] [1, 1, 1, 1] false).hs =
      [0, 2, 0] ∧
    (runPipeline [0, 1, 2, 3] [1, 0, -1, 0] [1, 0, -1, 0] [1, 1, 1, 1] false).mag_db =
      [FVal.nan, FVal.fin 0, FVal.nan] ∧
    (runPipeline [0, 1, 2, 3] [1, 0, -1, 0] [1, 0, -1, 0] [1, 1, 1, 1] false).phase_deg =
      [FVal.nan, FVal.fin 0, FVal.nan] :=
  ⟨c1_hs, c1_mag_db, c1_phase_deg⟩
